import Mathlib

/-!
Verification of `scripts/generate_variable_lists.py`: the variable-list
generation pipeline that turns an experiment dataset (per-experiment tier
lists Core/High/Medium/Low) and a list of mapping records (title, labels,
STASH entries) into one sorted manifest of canonical variable names per
experiment.

The Python code is embedded shallowly:

* Python `dict` is an insertion-ordered association list (`Dict`):
  assigning to an existing key updates its value in place (keeping its
  original position), assigning to a fresh key appends it at the end.
* Python `set` iteration order over strings is unspecified (string hashing
  is randomized per process), so the embedding takes the enumeration of a
  set as a parameter `sigma : List String → List String`; a valid
  enumeration is any duplicate-free list with the same members.
* Code that raises an exception is embedded with `Except String` /
  `Option`; an uncaught exception aborts the run.
* `re.search(r"Variable\s+([^\s(]+)", title)` is embedded by a direct
  left-to-right scan (`searchVariableC`); for this pattern greedy matching
  without backtracking is exact.
* Python `str.replace("UP", "ap")` (all occurrences, left to right,
  non-overlapping) is embedded by `replaceUPap`.
-/

namespace VarLists

/-- One STASH entry of a mapping record; only `usage_profile` is consumed. -/
structure StashEntry where
  usage_profile : String
deriving DecidableEq

/-- A mapping record as produced by `extract_mapping_information`: the
`labels`, `STASH entries` and `title` fields of the raw record (absent
fields default to `[]` / `""` at the JSON layer, which is out of scope). -/
structure Mapping where
  labels : List String
  stash_entries : List StashEntry
  title : String
deriving DecidableEq

/-- The per-experiment tier lists `Core`, `High`, `Medium`, `Low` of the
experiment dataset (missing tiers default to `[]`). -/
structure ExperimentData where
  core : List String
  high : List String
  med : List String
  low : List String
deriving DecidableEq

/-- A Python `dict[str, str]` as an insertion-ordered association list. -/
abbrev Dict := List (String × String)

/-- Lookup in an insertion-ordered dict (first entry with the key wins;
entries always have unique keys when built by `dinsert`). -/
def dlookup : Dict → String → Option String
  | [], _ => none
  | e :: d, k => if e.1 = k then some e.2 else dlookup d k

/-- Python `d[k] = v`: update the value in place when the key is present
(keeping its original position), otherwise append the new entry. -/
def dinsert : Dict → String → String → Dict
  | [], k, v => [(k, v)]
  | e :: d, k, v => if e.1 = k then (e.1, v) :: d else e :: dinsert d k v

/-- The keys of a dict, in insertion order. -/
def dkeys (d : Dict) : List String := d.map Prod.fst

/-- Characters Python regex `\s` matches (ASCII range). -/
def isPySpace (c : Char) : Bool :=
  c = ' ' || c = '\t' || c = '\n' || c = '\r' || c = '\x0b' || c = '\x0c'

/-- Boolean list-prefix test. -/
def isPrefixC : List Char → List Char → Bool
  | [], _ => true
  | _ :: _, [] => false
  | a :: ps, b :: ls => a = b && isPrefixC ps ls

/-- Boolean substring test, embedding the Python `in` operator on strings. -/
def isSubstrC (pat : List Char) : List Char → Bool
  | [] => pat.isEmpty
  | c :: t => isPrefixC pat (c :: t) || isSubstrC pat t

/-- Python `label in line` for strings. -/
def strContains (line pat : String) : Bool := isSubstrC pat.data line.data

/-- Python `variable.split(".")` on the character list: splitting on every
dot, keeping empty segments, with `splitOnDotC [] = [[]]`. -/
def splitOnDotC : List Char → List (List Char)
  | [] => [[]]
  | c :: rest =>
    if c = '.' then [] :: splitOnDotC rest
    else
      match splitOnDotC rest with
      | s :: ss => (c :: s) :: ss
      | [] => [[c]]

/-- Python `variable.split(".")`. -/
def splitOnDot (s : String) : List String := (splitOnDotC s.data).map (fun cs => ⟨cs⟩)

/-- Python `usage_profile.replace("UP", "ap")`: every occurrence of `UP`
is replaced, scanning left to right without overlap. -/
def replaceUPap : List Char → List Char
  | 'U' :: 'P' :: rest => 'a' :: 'p' :: replaceUPap rest
  | c :: rest => c :: replaceUPap rest
  | [] => []

/-- String wrapper for `replaceUPap`. -/
def strReplaceUPap (s : String) : String := ⟨replaceUPap s.data⟩

/-- Attempt to match the regex `Variable\s+([^\s(]+)` at the start of `l`:
the literal `Variable`, then at least one whitespace character, then the
maximal non-empty run of characters that are neither whitespace nor `(`. -/
def matchVariableAt (l : List Char) : Option (List Char) :=
  if isPrefixC "Variable".data l then
    let rest := l.drop 8
    let ws := rest.takeWhile isPySpace
    let tok := (rest.dropWhile isPySpace).takeWhile (fun c => !(isPySpace c) && c ≠ '(')
    if !ws.isEmpty && !tok.isEmpty then some tok else none
  else none

/-- `re.search`: try the pattern at every start position, left to right,
returning the first capture. -/
def searchVariableC : List Char → Option (List Char)
  | [] => none
  | c :: rest =>
    match matchVariableAt (c :: rest) with
    | some tok => some tok
    | none => searchVariableC rest

/-- `extract_variable_from_title`: `re.search(r"Variable\s+([^\s(]+)", title).group(1)`.
A title with no match makes the Python code call `.group` on `None`,
raising `AttributeError`; the embedding returns `none` there. -/
def extract_variable_from_title (m : Mapping) : Option String :=
  (searchVariableC m.title.data).map (fun cs => ⟨cs⟩)

/-- The message of the `AttributeError` raised when `re.search` returns
`None` and the code calls `.group(1)` on it. -/
def attributeErrorMsg : String := "AttributeError: NoneType object has no attribute group"

/-- The module constant `IGNORED_PRIORITIES = ("med", "low")`. -/
def IGNORED_PRIORITIES : List String := ["med", "low"]

/-- The module constant `PRIORITY_ORDER`, in dict-literal order. -/
def PRIORITY_ORDER : List (String × Nat) :=
  [("# priority=medium", 1), ("# priority=low", 2), ("# do-not-produce", 3)]

/-- `get_grouped_priority_labels`: the four tier lists, each passed through
`set(...)`; the enumeration of each set is given by `sigma`. -/
def get_grouped_priority_labels (sigma : List String → List String) (ed : ExperimentData) :
    List (String × List String) :=
  [("core", sigma ed.core), ("high", sigma ed.high), ("med", sigma ed.med), ("low", sigma ed.low)]

/-- The f-string `f" # priority={'medium' if level == 'med' else 'low'}"`. -/
def priority_comment_for (level : String) : String :=
  " # priority=" ++ (if level = "med" then "medium" else "low")

/-- `set_priority_comments`: walk the grouped dict in its insertion order
(core, high, med, low) and, for the levels in `IGNORED_PRIORITIES`, record
the priority comment for every variable of that level. -/
def set_priority_comments (sigma : List String → List String) (ed : ExperimentData) : Dict :=
  (get_grouped_priority_labels sigma ed).foldl
    (fun pc lv =>
      if lv.1 ∈ IGNORED_PRIORITIES then
        lv.2.foldl (fun pc var => dinsert pc var (priority_comment_for lv.1)) pc
      else pc)
    []

/-- `get_all_variables`: `chain(core, high, med, low)` over the set
enumerations. -/
def get_all_variables (sigma : List String → List String) (ed : ExperimentData) : List String :=
  sigma ed.core ++ sigma ed.high ++ sigma ed.med ++ sigma ed.low

/-- `update_variables_with_priority`: for every chained variable, write
`priority_comments.get(var, "")` into `variable_dict`. -/
def update_variables_with_priority (sigma : List String → List String) (ed : ExperimentData)
    (variable_dict : Dict) : Dict :=
  let priority_comments := set_priority_comments sigma ed
  (get_all_variables sigma ed).foldl
    (fun d var => dinsert d var ((dlookup priority_comments var).getD ""))
    variable_dict

/-- `identify_not_produced`: for every mapping record, extract the var
from the title (an unmatchable title raises, aborting the pass) and, when
the record carries the `do-not-produce` label, overwrite the entry in
`variable_dict` — inserting the key when it is absent. -/
def identify_not_produced : List Mapping → Dict → Except String Dict
  | [], variable_dict => .ok variable_dict
  | m :: ms, variable_dict =>
    match extract_variable_from_title m with
    | none => .error attributeErrorMsg
    | some var =>
      identify_not_produced ms
        (if "do-not-produce" ∈ m.labels then dinsert variable_dict var " # do-not-produce"
         else variable_dict)

/-- The stream value `get_streams` computes for one mapping record: the
`usage_profile` of the first STASH entry with every `UP` replaced by `ap`;
no entries or an empty profile yield the empty stream. -/
def streamOfMapping (m : Mapping) : String :=
  match m.stash_entries with
  | [] => ""
  | e :: _ => if e.usage_profile = "" then "" else strReplaceUPap e.usage_profile

/-- The loop of `get_streams`, threading the `streams` dict. -/
def get_streams_from : List Mapping → Dict → Except String Dict
  | [], streams => .ok streams
  | m :: ms, streams =>
    match extract_variable_from_title m with
    | none => .error attributeErrorMsg
    | some var => get_streams_from ms (dinsert streams var (streamOfMapping m))

/-- `get_streams`: variable → stream for every mapping record, starting
from the empty dict. -/
def get_streams (ms : List Mapping) : Except String Dict := get_streams_from ms []

/-- The `KeyError` message raised by `reformat_variable_names` for a
variable with fewer than four dot-separated parts. -/
def formatErrorMsg (var : String) : String :=
  var ++ " has unexpected format. Expected: realm.variable.branding.frequency.region"

/-- The body of the `reformat_variable_names` loop for one var:
split on dots, require at least four parts, build
`realm/variable_branding@frequency` and append `:stream` exactly when the
stream looked up for the dotted name is non-empty. -/
def canonical_name (streams : Dict) (var : String) : Option String :=
  match splitOnDot var with
  | realm :: variable_name :: branding :: frequency :: _ =>
    let stream := (dlookup streams var).getD ""
    if stream = "" then
      some (realm ++ "/" ++ variable_name ++ "_" ++ branding ++ "@" ++ frequency)
    else
      some (realm ++ "/" ++ variable_name ++ "_" ++ branding ++ "@" ++ frequency ++ ":" ++ stream)
  | _ => none

/-- The loop of `reformat_variable_names` over the entries of
`variable_dict`, building `renamed_variable_dict`; a too-short var
raises `KeyError`, aborting the pass. -/
def reformat_from (streams : Dict) : Dict → Dict → Except String Dict
  | [], renamed => .ok renamed
  | (var, comment) :: rest, renamed =>
    match canonical_name streams var with
    | none => .error (formatErrorMsg var)
    | some c => reformat_from streams rest (dinsert renamed c comment)

/-- `reformat_variable_names`: compute the streams dict, then rename every
entry of `variable_dict` into a fresh dict. -/
def reformat_variable_names (ms : List Mapping) (variable_dict : Dict) : Except String Dict :=
  match get_streams ms with
  | .error e => .error e
  | .ok streams => reformat_from streams variable_dict []

/-- `format_outfile_content`: one line per dict entry, commented out
exactly when the comment is non-empty (Python truthiness of the string). -/
def format_outfile_content (renamed_variable_dict : Dict) : List String :=
  renamed_variable_dict.map
    (fun e => if e.2 = "" then e.1 ++ "\n" else "#" ++ e.1 ++ e.2 ++ "\n")

/-- `sort_key`: the first label of `PRIORITY_ORDER` contained in the line
gives the weight; no match gives weight 0. -/
def sort_key (line : String) : Nat :=
  match PRIORITY_ORDER.find? (fun p => strContains line p.1) with
  | some p => p.2
  | none => 0

/-- Stable insertion of a line into an already weight-sorted list: the new
line goes before the first line of strictly larger weight, after every
earlier-produced line of smaller or equal weight. -/
def insLine (a : String) : List String → List String
  | [] => [a]
  | b :: l => if sort_key a ≤ sort_key b then a :: b :: l else b :: insLine a l

/-- `sorted(lines, key=sort_key)`: a stable sort by `sort_key`. -/
def sortLines : List String → List String
  | [] => []
  | a :: l => insLine a (sortLines l)

/-- `save_outfile`, modelled as the sequence of lines written to the file:
format the entries, then stable-sort the lines by `sort_key`. -/
def save_outfile (renamed_variable_dict : Dict) : List String :=
  sortLines (format_outfile_content renamed_variable_dict)

/-- The per-experiment body of the `generate_variable_lists` loop. Python
builds `functions` as a list of three already-evaluated call results; the
first two calls mutate and return the same shared `variable_dict` object,
so after evaluation the list is `[d2, d2, d3]` where `d2` is the shared
dict in its post-overlay state and `d3` the fresh renamed dict; the
`for f in functions: variable_dict = f` loop rebinds `variable_dict` to
each element in turn, ending at the last. -/
def process_experiment (sigma : List String → List String) (ms : List Mapping)
    (ed : ExperimentData) : Except String Dict :=
  let d1 := update_variables_with_priority sigma ed []
  match identify_not_produced ms d1 with
  | .error e => .error e
  | .ok d2 =>
    match reformat_variable_names ms d2 with
    | .error e => .error e
    | .ok d3 => .ok ([d2, d2, d3].foldl (fun _ f => f) d1)

/-- The driver loop of `generate_variable_lists` over the experiments:
each experiment in turn is processed and its sorted manifest saved; an
uncaught exception aborts the run, so the experiments after the failing
one produce no manifests. The result is the list of saved manifests
together with the error that aborted the run, if any. -/
def generate_variable_lists (sigma : List String → List String) (ms : List Mapping) :
    List (String × ExperimentData) → List (String × List String) × Option String
  | [] => ([], none)
  | (name, ed) :: rest =>
    match process_experiment sigma ms ed with
    | .error e => ([], some e)
    | .ok d =>
      let out := generate_variable_lists sigma ms rest
      ((name, save_outfile d) :: out.1, out.2)

/-- A valid enumeration of the Python set built from a list: any
duplicate-free list with exactly the same members. -/
def IsSetList (s l : List String) : Prop := s.Nodup ∧ ∀ x, x ∈ s ↔ x ∈ l

/-- A valid model of Python set construction: every list is enumerated by
some duplicate-free list with the same members. -/
def SetChooser (sigma : List String → List String) : Prop := ∀ l, IsSetList (sigma l) l

theorem dlookup_dinsert (d : Dict) (k v q : String) :
    dlookup (dinsert d k v) q = if q = k then some v else dlookup d q := by
  induction d with
  | nil =>
    by_cases h : q = k
    · simp [dinsert, dlookup, h]
    · simp [dinsert, dlookup, h, Ne.symm h]
  | cons e d ih =>
    by_cases hek : e.1 = k
    · by_cases hqk : q = k
      · simp [dinsert, dlookup, hek, hqk]
      · have hne : e.1 ≠ q := fun h => hqk (h.symm.trans hek)
        simp [dinsert, dlookup, hek, hqk, hne, Ne.symm hqk]
    · by_cases heq : e.1 = q
      · have hqk : q ≠ k := fun h => hek (heq.trans h)
        simp [dinsert, dlookup, hek, heq, hqk]
      · simp [dinsert, dlookup, hek, heq, ih]

theorem dlookup_foldl_dinsert (f : String → String) (l : List String) (d : Dict) (q : String) :
    dlookup (l.foldl (fun d v => dinsert d v (f v)) d) q =
      if q ∈ l then some (f q) else dlookup d q := by
  induction l generalizing d with
  | nil => simp
  | cons a t ih =>
    simp only [List.foldl_cons, ih, dlookup_dinsert, List.mem_cons]
    by_cases hqt : q ∈ t
    · simp [hqt]
    · by_cases hqa : q = a <;> simp [hqt, hqa]

theorem dlookup_foldl_dinsert_const (c : String) (l : List String) (d : Dict) (q : String) :
    dlookup (l.foldl (fun d v => dinsert d v c) d) q =
      if q ∈ l then some c else dlookup d q :=
  dlookup_foldl_dinsert (fun _ => c) l d q

theorem set_priority_comments_eq (sigma : List String → List String) (ed : ExperimentData) :
    set_priority_comments sigma ed =
      (sigma ed.low).foldl (fun pc var => dinsert pc var " # priority=low")
        ((sigma ed.med).foldl (fun pc var => dinsert pc var " # priority=medium") []) := rfl

theorem dlookup_set_priority_comments (sigma : List String → List String)
    (ed : ExperimentData) (q : String) :
    dlookup (set_priority_comments sigma ed) q =
      if q ∈ sigma ed.low then some " # priority=low"
      else if q ∈ sigma ed.med then some " # priority=medium"
      else none := by
  rw [set_priority_comments_eq, dlookup_foldl_dinsert_const, dlookup_foldl_dinsert_const]
  rfl

theorem dlookup_update_variables (sigma : List String → List String) (ed : ExperimentData)
    (d0 : Dict) (q : String) :
    dlookup (update_variables_with_priority sigma ed d0) q =
      if q ∈ get_all_variables sigma ed
      then some ((dlookup (set_priority_comments sigma ed) q).getD "")
      else dlookup d0 q :=
  dlookup_foldl_dinsert (fun v => (dlookup (set_priority_comments sigma ed) v).getD "")
    (get_all_variables sigma ed) d0 q

theorem setChooser_dedup : SetChooser List.dedup :=
  fun l => ⟨List.nodup_dedup l, fun _ => List.mem_dedup⟩

theorem setChooser_dedup_reverse : SetChooser (fun l => (List.dedup l).reverse) :=
  fun l => ⟨List.nodup_reverse.2 (List.nodup_dedup l),
    fun x => by simp [List.mem_reverse, List.mem_dedup]⟩

/-- C8: priority comments are assigned walking the tiers in the fixed order
core, high, med, low: a variable only in Core or High gets the empty
comment (no annotation), a variable in Medium but not Low gets
`priority=medium`, and a variable in Low gets `priority=low` — the Low
pass writes last, so it wins for a variable in both Medium and Low. -/
theorem priority_tier_assignment_order (sigma : List String → List String)
    (hsig : SetChooser sigma) (ed : ExperimentData) (v : String) :
    ((v ∈ ed.core ∨ v ∈ ed.high) → v ∉ ed.med → v ∉ ed.low →
      dlookup (update_variables_with_priority sigma ed []) v = some "")
    ∧ (v ∈ ed.med → v ∉ ed.low →
      dlookup (update_variables_with_priority sigma ed []) v = some " # priority=medium")
    ∧ (v ∈ ed.low →
      dlookup (update_variables_with_priority sigma ed []) v = some " # priority=low") := by
  have hmem : ∀ l, v ∈ sigma l ↔ v ∈ l := fun l => (hsig l).2 v
  refine ⟨?_, ?_, ?_⟩
  · intro hch hm hl
    have hv : v ∈ get_all_variables sigma ed := by
      rcases hch with h | h <;> simp [get_all_variables, List.mem_append, hmem, h]
    rw [dlookup_update_variables, if_pos hv, dlookup_set_priority_comments,
      if_neg (by simpa [hmem] using hl), if_neg (by simpa [hmem] using hm)]
    rfl
  · intro hm hl
    have hv : v ∈ get_all_variables sigma ed := by
      simp [get_all_variables, List.mem_append, hmem, hm]
    rw [dlookup_update_variables, if_pos hv, dlookup_set_priority_comments,
      if_neg (by simpa [hmem] using hl), if_pos (by simpa [hmem] using hm)]
    rfl
  · intro hl
    have hv : v ∈ get_all_variables sigma ed := by
      simp [get_all_variables, List.mem_append, hmem, hl]
    rw [dlookup_update_variables, if_pos hv, dlookup_set_priority_comments,
      if_pos (by simpa [hmem] using hl)]
    rfl

/-- Witness for C8 at a concrete experiment, covering all three cases,
including a variable in both Medium and Low for which Low wins. -/
theorem priority_tier_assignment_order_witness :
    dlookup (update_variables_with_priority List.dedup
        ⟨["m.a.b.f.g"], [], ["m.c.b.f.g", "m.d.b.f.g"], ["m.d.b.f.g"]⟩ []) "m.a.b.f.g" = some ""
    ∧ dlookup (update_variables_with_priority List.dedup
        ⟨["m.a.b.f.g"], [], ["m.c.b.f.g", "m.d.b.f.g"], ["m.d.b.f.g"]⟩ []) "m.c.b.f.g" =
        some " # priority=medium"
    ∧ dlookup (update_variables_with_priority List.dedup
        ⟨["m.a.b.f.g"], [], ["m.c.b.f.g", "m.d.b.f.g"], ["m.d.b.f.g"]⟩ []) "m.d.b.f.g" =
        some " # priority=low" :=
  ⟨(priority_tier_assignment_order List.dedup setChooser_dedup _ _).1
      (Or.inl (by decide)) (by decide) (by decide),
    (priority_tier_assignment_order List.dedup setChooser_dedup _ _).2.1
      (by decide) (by decide),
    (priority_tier_assignment_order List.dedup setChooser_dedup _ _).2.2 (by decide)⟩

/-- The sequential composition of the three stages as the spec words it
for the per-experiment pipeline: priority assignment on an empty dict,
then the do-not-produce overlay, then identifier normalization (the
refinement target of C10). -/
def sequential_stages (sigma : List String → List String) (ms : List Mapping)
    (ed : ExperimentData) : Except String Dict :=
  (identify_not_produced ms (update_variables_with_priority sigma ed [])).bind
    (fun d2 => reformat_variable_names ms d2)

/-- C10: the driver builds the list of three already-evaluated stage
results (the first two being the same shared dict, mutated in place, and
the third a fresh dict) and rebinds `variable_dict` to each element in
turn; the final map equals the sequential composition of priority
assignment, do-not-produce overlay and identifier normalization. -/
theorem driver_list_rebinding_eq_sequential (sigma : List String → List String)
    (ms : List Mapping) (ed : ExperimentData) :
    process_experiment sigma ms ed = sequential_stages sigma ms ed := by
  unfold process_experiment sequential_stages
  cases h : identify_not_produced ms (update_variables_with_priority sigma ed []) with
  | error e => simp [h, Except.bind]
  | ok d2 =>
    cases h2 : reformat_variable_names ms d2 with
    | error e => simp [h, h2, Except.bind]
    | ok d3 => simp [h, h2, Except.bind]

theorem mem_insLine (a x : String) (l : List String) : x ∈ insLine a l ↔ x = a ∨ x ∈ l := by
  induction l with
  | nil => simp [insLine]
  | cons b l ih =>
    by_cases hab : sort_key a ≤ sort_key b
    · simp [insLine, hab, List.mem_cons]
    · simp only [insLine, if_neg hab, List.mem_cons, ih]
      tauto

theorem perm_insLine (a : String) (l : List String) : (insLine a l).Perm (a :: l) := by
  induction l with
  | nil => simp [insLine]
  | cons b l ih =>
    by_cases hab : sort_key a ≤ sort_key b
    · simp [insLine, hab]
    · rw [insLine, if_neg hab]
      exact (ih.cons b).trans (List.Perm.swap a b l)

theorem perm_sortLines (l : List String) : (sortLines l).Perm l := by
  induction l with
  | nil => simp [sortLines]
  | cons a l ih => exact (perm_insLine a (sortLines l)).trans (ih.cons a)

theorem pairwise_insLine (a : String) (l : List String)
    (h : l.Pairwise (fun x y => sort_key x ≤ sort_key y)) :
    (insLine a l).Pairwise (fun x y => sort_key x ≤ sort_key y) := by
  induction l with
  | nil => simp [insLine]
  | cons b l ih =>
    rw [List.pairwise_cons] at h
    by_cases hab : sort_key a ≤ sort_key b
    · rw [insLine, if_pos hab, List.pairwise_cons]
      refine ⟨?_, List.pairwise_cons.2 h⟩
      intro x hx
      rcases List.mem_cons.1 hx with rfl | hx
      · exact hab
      · exact hab.trans (h.1 x hx)
    · rw [insLine, if_neg hab, List.pairwise_cons]
      refine ⟨?_, ih h.2⟩
      intro x hx
      rcases (mem_insLine a x l).1 hx with rfl | hx
      · exact Nat.le_of_lt (Nat.lt_of_not_le hab)
      · exact h.1 x hx

theorem pairwise_sortLines (l : List String) :
    (sortLines l).Pairwise (fun x y => sort_key x ≤ sort_key y) := by
  induction l with
  | nil => simp [sortLines]
  | cons a l ih => exact pairwise_insLine a (sortLines l) ih

theorem filter_insLine (a : String) (l : List String) (w : Nat) :
    (insLine a l).filter (fun x => sort_key x = w) =
      if sort_key a = w then a :: l.filter (fun x => sort_key x = w)
      else l.filter (fun x => sort_key x = w) := by
  induction l with
  | nil =>
    by_cases ha : sort_key a = w <;> simp [insLine, List.filter_cons, ha]
  | cons b l ih =>
    by_cases hab : sort_key a ≤ sort_key b
    · rw [insLine, if_pos hab]
      by_cases ha : sort_key a = w <;> simp [List.filter_cons, ha]
    · have hba : sort_key b < sort_key a := Nat.lt_of_not_le hab
      rw [insLine, if_neg hab]
      by_cases ha : sort_key a = w
      · have hb : sort_key b ≠ w := fun hb => by
          rw [ha] at hba
          rw [hb] at hba
          exact Nat.lt_irrefl w hba
        simp [List.filter_cons, ha, hb, ih]
      · by_cases hb : sort_key b = w <;> simp [List.filter_cons, ha, hb, ih]

theorem filter_sortLines (l : List String) (w : Nat) :
    (sortLines l).filter (fun x => sort_key x = w) = l.filter (fun x => sort_key x = w) := by
  induction l with
  | nil => rfl
  | cons a l ih =>
    rw [sortLines, filter_insLine]
    by_cases ha : sort_key a = w <;> simp [List.filter_cons, ha, ih]

/-- C3: in every saved manifest the line weights (0 for no matching label,
1 for `# priority=medium`, 2 for `# priority=low`, 3 for `# do-not-produce`,
first match of the substring lookup winning) are non-decreasing — so all
weight-0 lines precede all medium lines, which precede all low lines,
which precede all do-not-produce lines — and within each weight class the
relative order in which the lines were produced is preserved (stable sort,
no secondary key). -/
theorem manifest_ordering_stable_by_weight (d : Dict) :
    (save_outfile d).Pairwise (fun x y => sort_key x ≤ sort_key y)
    ∧ ∀ w, (save_outfile d).filter (fun x => sort_key x = w) =
        (format_outfile_content d).filter (fun x => sort_key x = w) :=
  ⟨pairwise_sortLines (format_outfile_content d),
    fun w => filter_sortLines (format_outfile_content d) w⟩

theorem mem_of_dlookup (d : Dict) (k v : String) (h : dlookup d k = some v) : (k, v) ∈ d := by
  induction d with
  | nil => cases h
  | cons e d ih =>
    obtain ⟨k0, v0⟩ := e
    simp only [dlookup] at h
    by_cases hek : k0 = k
    · rw [if_pos hek] at h
      injection h with h
      subst hek
      subst h
      exact List.mem_cons_self _ _
    · rw [if_neg hek] at h
      exact List.mem_cons_of_mem _ (ih h)

theorem mem_dkeys_dinsert (d : Dict) (k v x : String) :
    x ∈ dkeys (dinsert d k v) ↔ x = k ∨ x ∈ dkeys d := by
  induction d with
  | nil => simp [dinsert, dkeys]
  | cons e d ih =>
    by_cases hek : e.1 = k
    · rw [dinsert, if_pos hek]
      simp only [dkeys, List.map_cons, List.mem_cons, hek]
      tauto
    · rw [dinsert, if_neg hek]
      simp only [dkeys, List.map_cons, List.mem_cons] at ih ⊢
      rw [ih]
      tauto

theorem nodup_dkeys_dinsert (d : Dict) (k v : String) (h : (dkeys d).Nodup) :
    (dkeys (dinsert d k v)).Nodup := by
  induction d with
  | nil => simp [dinsert, dkeys]
  | cons e d ih =>
    simp only [dkeys, List.map_cons, List.nodup_cons] at h
    by_cases hek : e.1 = k
    · rw [dinsert, if_pos hek]
      simpa [dkeys, List.nodup_cons] using h
    · rw [dinsert, if_neg hek]
      simp only [dkeys, List.map_cons, List.nodup_cons]
      refine ⟨fun hx => ?_, ih h.2⟩
      rcases (mem_dkeys_dinsert d k v e.1).1 hx with h1 | h1
      · exact hek h1
      · exact h.1 h1

theorem nodup_dkeys_foldl_dinsert (f : String → String) (l : List String) (d : Dict)
    (h : (dkeys d).Nodup) :
    (dkeys (l.foldl (fun d v => dinsert d v (f v)) d)).Nodup := by
  induction l generalizing d with
  | nil => exact h
  | cons a t ih => exact ih _ (nodup_dkeys_dinsert d a (f a) h)

theorem nodup_dkeys_update (sigma : List String → List String) (ed : ExperimentData) :
    (dkeys (update_variables_with_priority sigma ed [])).Nodup :=
  nodup_dkeys_foldl_dinsert _ _ [] (by simp [dkeys])

theorem nodup_dkeys_identify (ms : List Mapping) (d d' : Dict)
    (h : identify_not_produced ms d = .ok d') (hd : (dkeys d).Nodup) : (dkeys d').Nodup := by
  induction ms generalizing d with
  | nil =>
    rw [identify_not_produced] at h
    injection h with h
    rw [← h]
    exact hd
  | cons m ms ih =>
    cases hx : extract_variable_from_title m with
    | none => simp only [identify_not_produced, hx] at h; exact Except.noConfusion h
    | some v =>
      simp only [identify_not_produced, hx] at h
      by_cases hl : "do-not-produce" ∈ m.labels
      · rw [if_pos hl] at h
        exact ih _ h (nodup_dkeys_dinsert d v _ hd)
      · rw [if_neg hl] at h
        exact ih _ h hd

theorem identify_preserves_dnp (ms : List Mapping) (d d' : Dict) (k : String)
    (h : identify_not_produced ms d = .ok d')
    (hk : dlookup d k = some " # do-not-produce") :
    dlookup d' k = some " # do-not-produce" := by
  induction ms generalizing d with
  | nil =>
    rw [identify_not_produced] at h
    injection h with h
    rw [← h]
    exact hk
  | cons m ms ih =>
    cases hx : extract_variable_from_title m with
    | none => simp only [identify_not_produced, hx] at h; exact Except.noConfusion h
    | some v =>
      simp only [identify_not_produced, hx] at h
      by_cases hl : "do-not-produce" ∈ m.labels
      · rw [if_pos hl] at h
        refine ih _ h ?_
        rw [dlookup_dinsert]
        by_cases hkv : k = v <;> simp [hkv, hk]
      · rw [if_neg hl] at h
        exact ih _ h hk

theorem identify_sets_dnp (ms : List Mapping) (d d' : Dict) (m : Mapping) (k : String)
    (h : identify_not_produced ms d = .ok d') (hm : m ∈ ms)
    (he : extract_variable_from_title m = some k)
    (hl : "do-not-produce" ∈ m.labels) :
    dlookup d' k = some " # do-not-produce" := by
  induction ms generalizing d with
  | nil => cases hm
  | cons m0 ms ih =>
    cases hx : extract_variable_from_title m0 with
    | none => simp only [identify_not_produced, hx] at h; exact Except.noConfusion h
    | some v =>
      simp only [identify_not_produced, hx] at h
      rcases List.mem_cons.1 hm with rfl | hm'
      · have hv : v = k := by rw [hx] at he; injection he
        rw [if_pos hl] at h
        refine identify_preserves_dnp ms _ d' k h ?_
        rw [dlookup_dinsert, hv, if_pos rfl]
      · by_cases hl0 : "do-not-produce" ∈ m0.labels
        · rw [if_pos hl0] at h
          exact ih _ h hm'
        · rw [if_neg hl0] at h
          exact ih _ h hm'

theorem identify_keys (ms : List Mapping) (d d' : Dict) (k : String)
    (h : identify_not_produced ms d = .ok d') :
    (dlookup d' k).isSome = true ↔ (dlookup d k).isSome = true ∨
      ∃ m ∈ ms, extract_variable_from_title m = some k ∧ "do-not-produce" ∈ m.labels := by
  induction ms generalizing d with
  | nil =>
    rw [identify_not_produced] at h
    injection h with h
    rw [← h]
    simp
  | cons m0 ms ih =>
    cases hx : extract_variable_from_title m0 with
    | none => simp only [identify_not_produced, hx] at h; exact Except.noConfusion h
    | some v =>
      simp only [identify_not_produced, hx] at h
      by_cases hl : "do-not-produce" ∈ m0.labels
      · rw [if_pos hl] at h
        rw [ih _ h]
        constructor
        · rintro (hd | ⟨m, hmm, hme, hml⟩)
          · rw [dlookup_dinsert] at hd
            by_cases hkv : k = v
            · exact Or.inr ⟨m0, List.mem_cons_self m0 ms, by rw [hx, hkv], hl⟩
            · rw [if_neg hkv] at hd
              exact Or.inl hd
          · exact Or.inr ⟨m, List.mem_cons_of_mem m0 hmm, hme, hml⟩
        · rintro (hd | ⟨m, hmm, hme, hml⟩)
          · refine Or.inl ?_
            rw [dlookup_dinsert]
            by_cases hkv : k = v <;> simp [hkv, hd]
          · rcases List.mem_cons.1 hmm with rfl | hmm'
            · have hv : v = k := by rw [hx] at hme; injection hme
              refine Or.inl ?_
              rw [dlookup_dinsert, hv, if_pos rfl]
              rfl
            · exact Or.inr ⟨m, hmm', hme, hml⟩
      · rw [if_neg hl] at h
        rw [ih _ h]
        constructor
        · rintro (hd | ⟨m, hmm, hme, hml⟩)
          · exact Or.inl hd
          · exact Or.inr ⟨m, List.mem_cons_of_mem m0 hmm, hme, hml⟩
        · rintro (hd | ⟨m, hmm, hme, hml⟩)
          · exact Or.inl hd
          · rcases List.mem_cons.1 hmm with rfl | hmm'
            · exact absurd hml hl
            · exact Or.inr ⟨m, hmm', hme, hml⟩

theorem reformat_from_untouched (streams : Dict) (entries renamed r : Dict) (c : String)
    (h : reformat_from streams entries renamed = .ok r)
    (hno : ∀ e ∈ entries, canonical_name streams e.1 ≠ some c) :
    dlookup r c = dlookup renamed c := by
  induction entries generalizing renamed with
  | nil =>
    rw [reformat_from] at h
    injection h with h
    rw [← h]
  | cons e rest ih =>
    obtain ⟨k0, v0⟩ := e
    cases hc0 : canonical_name streams k0 with
    | none => simp only [reformat_from, hc0] at h; exact Except.noConfusion h
    | some c0 =>
      simp only [reformat_from, hc0] at h
      rw [ih _ h (fun e he => hno e (List.mem_cons_of_mem _ he)), dlookup_dinsert, if_neg]
      intro hcc0
      exact hno (k0, v0) (List.mem_cons_self _ _) (by rw [hc0, hcc0])

theorem reformat_from_value (streams : Dict) (entries renamed r : Dict) (k c val : String)
    (h : reformat_from streams entries renamed = .ok r)
    (hnodup : (dkeys entries).Nodup)
    (hmem : (k, val) ∈ entries)
    (hc : canonical_name streams k = some c)
    (hno : ∀ e ∈ entries, e.1 ≠ k → canonical_name streams e.1 ≠ some c) :
    dlookup r c = some val := by
  induction entries generalizing renamed with
  | nil => cases hmem
  | cons e rest ih =>
    obtain ⟨k0, v0⟩ := e
    cases hc0 : canonical_name streams k0 with
    | none => simp only [reformat_from, hc0] at h; exact Except.noConfusion h
    | some c0 =>
      simp only [reformat_from, hc0] at h
      rcases List.mem_cons.1 hmem with heq | hmem'
      · injection heq with hk0 hv0
        subst hk0
        subst hv0
        have hcc : c0 = c := by
          rw [hc0] at hc
          injection hc
        have hkeys : k ∉ dkeys rest := by
          simp only [dkeys, List.map_cons, List.nodup_cons] at hnodup
          exact hnodup.1
        have hrest : ∀ e ∈ rest, canonical_name streams e.1 ≠ some c := by
          intro e he
          by_cases hek : e.1 = k
          · exfalso
            apply hkeys
            rw [← hek]
            exact List.mem_map_of_mem Prod.fst he
          · exact hno e (List.mem_cons_of_mem _ he) hek
        rw [reformat_from_untouched streams rest _ r c h hrest, dlookup_dinsert, hcc,
          if_pos rfl]
      · refine ih _ h ?_ hmem' (fun e he hek => hno e (List.mem_cons_of_mem _ he) hek)
        simp only [dkeys, List.map_cons, List.nodup_cons] at hnodup
        exact hnodup.2

/-- C1 counterexample: two requested keys that normalize to the same
canonical name. Key `p.q.r.s.a` is in the experiment annotation map and
its mapping record carries the `do-not-produce` label, so after the
overlay its annotation is `do-not-produce`; but during normalization the
key `p.q.r.s.b` (annotation-free, Core) collides with it on the canonical
name `p/q_r@s`, is processed later, and overwrites the annotation, so the
manifest renders the single uncommented line `p/q_r@s` — not
`do-not-produce`. `List.dedup` is a legitimate set enumeration. -/
theorem do_not_produce_lost_on_canonical_collision :
    identify_not_produced [⟨["do-not-produce"], [], "Variable p.q.r.s.a"⟩]
        (update_variables_with_priority List.dedup ⟨["p.q.r.s.a", "p.q.r.s.b"], [], [], []⟩ []) =
      .ok [("p.q.r.s.a", " # do-not-produce"), ("p.q.r.s.b", "")]
    ∧ process_experiment List.dedup [⟨["do-not-produce"], [], "Variable p.q.r.s.a"⟩]
        ⟨["p.q.r.s.a", "p.q.r.s.b"], [], [], []⟩ = .ok [("p/q_r@s", "")]
    ∧ save_outfile [("p/q_r@s", "")] = ["p/q_r@s\n"]
    ∧ SetChooser List.dedup :=
  ⟨rfl, rfl, rfl, setChooser_dedup⟩

/-- C1 (amended): for every experiment, every variable key whose mapping
record carries the `do-not-produce` label has annotation `do-not-produce`
in the annotation map after the overlay pass, which runs strictly after
priority assignment and overrides any priority annotation, regardless of
the key's tiers; and — provided no other key of the annotation map
normalizes to the same canonical name (the proviso forced by
`do_not_produce_lost_on_canonical_collision`) — the rendered manifest
contains the commented `do-not-produce` line for that key. -/
theorem do_not_produce_overrides_priority (sigma : List String → List String)
    (ms : List Mapping) (ed : ExperimentData) (d2 streams r : Dict) (m : Mapping)
    (k c : String)
    (h2 : identify_not_produced ms (update_variables_with_priority sigma ed []) = .ok d2)
    (hm : m ∈ ms) (he : extract_variable_from_title m = some k)
    (hl : "do-not-produce" ∈ m.labels)
    (hs : get_streams ms = .ok streams)
    (hrf : reformat_variable_names ms d2 = .ok r)
    (hc : canonical_name streams k = some c)
    (hno : ∀ e ∈ d2, e.1 ≠ k → canonical_name streams e.1 ≠ some c) :
    dlookup d2 k = some " # do-not-produce"
    ∧ dlookup r c = some " # do-not-produce"
    ∧ ("#" ++ c ++ " # do-not-produce" ++ "\n") ∈ save_outfile r := by
  have hd2 : dlookup d2 k = some " # do-not-produce" :=
    identify_sets_dnp ms _ d2 m k h2 hm he hl
  have hnodup : (dkeys d2).Nodup :=
    nodup_dkeys_identify ms _ d2 h2 (nodup_dkeys_update sigma ed)
  have hr : reformat_from streams d2 [] = .ok r := by
    simp only [reformat_variable_names, hs] at hrf
    exact hrf
  have hrc : dlookup r c = some " # do-not-produce" :=
    reformat_from_value streams d2 [] r k c _ hr hnodup (mem_of_dlookup d2 k _ hd2) hc hno
  refine ⟨hd2, hrc, ?_⟩
  have hmem : (c, " # do-not-produce") ∈ r := mem_of_dlookup r c _ hrc
  have hline : ("#" ++ c ++ " # do-not-produce" ++ "\n") ∈ format_outfile_content r := by
    unfold format_outfile_content
    exact List.mem_map.2 ⟨(c, " # do-not-produce"), hmem, rfl⟩
  exact ((perm_sortLines (format_outfile_content r)).mem_iff).2 hline

/-- Witness for the amended C1 at the Scenario-B data: tier Medium key
`atmos.tas.mean.mon.global` whose mapping record is labelled
`do-not-produce` ends as the manifest line
`#atmos/tas_mean@mon # do-not-produce`. -/
theorem do_not_produce_overrides_priority_witness :
    dlookup [("atmos.tas.mean.mon.global", " # do-not-produce")] "atmos.tas.mean.mon.global" =
        some " # do-not-produce"
    ∧ dlookup [("atmos/tas_mean@mon", " # do-not-produce")] "atmos/tas_mean@mon" =
        some " # do-not-produce"
    ∧ ("#" ++ "atmos/tas_mean@mon" ++ " # do-not-produce" ++ "\n") ∈
        save_outfile [("atmos/tas_mean@mon", " # do-not-produce")] :=
  do_not_produce_overrides_priority List.dedup
    [⟨["do-not-produce"], [], "Variable atmos.tas.mean.mon.global"⟩]
    ⟨[], [], ["atmos.tas.mean.mon.global"], []⟩
    [("atmos.tas.mean.mon.global", " # do-not-produce")]
    [("atmos.tas.mean.mon.global", "")]
    [("atmos/tas_mean@mon", " # do-not-produce")]
    ⟨["do-not-produce"], [], "Variable atmos.tas.mean.mon.global"⟩
    "atmos.tas.mean.mon.global" "atmos/tas_mean@mon"
    rfl (List.mem_cons_self _ _) rfl (by decide) rfl rfl rfl (by decide)

/-- C2 counterexample: the overlay inserts a key the experiment never
requested. With one Core key `a.b.c.d.e` and a mapping record for
`x.y.z.w.r` labelled `do-not-produce`, the post-overlay annotation map
holds `x.y.z.w.r` even though it is in none of the four tier lists, so
the key set is strictly larger than the union of the tiers. -/
theorem overlay_inserts_unrequested_key :
    identify_not_produced [⟨["do-not-produce"], [], "Variable x.y.z.w.r"⟩]
        (update_variables_with_priority List.dedup ⟨["a.b.c.d.e"], [], [], []⟩ []) =
      .ok [("a.b.c.d.e", ""), ("x.y.z.w.r", " # do-not-produce")]
    ∧ (dlookup [("a.b.c.d.e", ""), ("x.y.z.w.r", " # do-not-produce")] "x.y.z.w.r").isSome = true
    ∧ "x.y.z.w.r" ∉ (["a.b.c.d.e"] ++ ([] : List String) ++ [] ++ [])
    ∧ SetChooser List.dedup :=
  ⟨rfl, rfl, by decide, setChooser_dedup⟩

/-- C2 (amended): for every experiment, the key set of the post-overlay
annotation map (and hence the line set of its manifest) is the union of
the four tier lists together with the keys of all mapping records that
carry the `do-not-produce` label: the overlay rewrites annotations of
requested keys but also inserts keys for do-not-produce records the
experiment did not request. -/
theorem annotation_map_keys_union_with_inserted (sigma : List String → List String)
    (hsig : SetChooser sigma) (ms : List Mapping) (ed : ExperimentData) (d2 : Dict)
    (h : identify_not_produced ms (update_variables_with_priority sigma ed []) = .ok d2)
    (k : String) :
    (dlookup d2 k).isSome = true ↔
      ((k ∈ ed.core ∨ k ∈ ed.high ∨ k ∈ ed.med ∨ k ∈ ed.low)
        ∨ ∃ m ∈ ms, extract_variable_from_title m = some k ∧ "do-not-produce" ∈ m.labels) := by
  have hmem : ∀ l, k ∈ sigma l ↔ k ∈ l := fun l => (hsig l).2 k
  rw [identify_keys ms _ d2 k h, dlookup_update_variables]
  by_cases hk : k ∈ get_all_variables sigma ed
  · have htier : k ∈ ed.core ∨ k ∈ ed.high ∨ k ∈ ed.med ∨ k ∈ ed.low := by
      simpa [get_all_variables, List.mem_append, hmem, or_assoc] using hk
    simp [hk, htier]
  · have htier : ¬(k ∈ ed.core ∨ k ∈ ed.high ∨ k ∈ ed.med ∨ k ∈ ed.low) := by
      simpa [get_all_variables, List.mem_append, hmem, or_assoc] using hk
    simp [hk, dlookup, htier]

/-- Witness for the amended C2: the unrequested do-not-produce key is in
the map via the right disjunct, and a key in no tier and no record is
absent from the map. -/
theorem annotation_map_keys_union_with_inserted_witness :
    (dlookup [("a.b.c.d.e", ""), ("x.y.z.w.r", " # do-not-produce")] "x.y.z.w.r").isSome = true
    ∧ ¬(dlookup [("a.b.c.d.e", ""), ("x.y.z.w.r", " # do-not-produce")] "nope.a.b.c").isSome
        = true :=
  ⟨(annotation_map_keys_union_with_inserted List.dedup setChooser_dedup
      [⟨["do-not-produce"], [], "Variable x.y.z.w.r"⟩] ⟨["a.b.c.d.e"], [], [], []⟩
      [("a.b.c.d.e", ""), ("x.y.z.w.r", " # do-not-produce")] rfl "x.y.z.w.r").2
      (Or.inr ⟨⟨["do-not-produce"], [], "Variable x.y.z.w.r"⟩, List.mem_cons_self _ _,
        rfl, by decide⟩),
    fun hsome =>
      ((annotation_map_keys_union_with_inserted List.dedup setChooser_dedup
        [⟨["do-not-produce"], [], "Variable x.y.z.w.r"⟩] ⟨["a.b.c.d.e"], [], [], []⟩
        [("a.b.c.d.e", ""), ("x.y.z.w.r", " # do-not-produce")] rfl "nope.a.b.c").1 hsome).elim
        (by decide) (fun ⟨m, hm, hme, _⟩ => by
          rcases List.mem_cons.1 hm with rfl | hm0
          · exact absurd hme (by decide)
          · cases hm0)⟩

theorem get_streams_from_preserves (ms : List Mapping) (acc streams : Dict) (v w : String)
    (hs : get_streams_from ms acc = .ok streams)
    (hacc : dlookup acc v = some w)
    (hw : ∀ m2 ∈ ms, extract_variable_from_title m2 = some v → streamOfMapping m2 = w) :
    dlookup streams v = some w := by
  induction ms generalizing acc with
  | nil =>
    rw [get_streams_from] at hs
    injection hs with hs
    rw [← hs]
    exact hacc
  | cons m0 ms ih =>
    cases hx : extract_variable_from_title m0 with
    | none => simp only [get_streams_from, hx] at hs; exact Except.noConfusion hs
    | some v0 =>
      simp only [get_streams_from, hx] at hs
      refine ih _ hs ?_ (fun m2 hm2 he2 => hw m2 (List.mem_cons_of_mem m0 hm2) he2)
      rw [dlookup_dinsert]
      by_cases hvv : v = v0
      · rw [if_pos hvv, hw m0 (List.mem_cons_self m0 ms) (by rw [hx, hvv])]
      · rw [if_neg hvv]
        exact hacc

theorem get_streams_from_lookup (ms : List Mapping) (acc streams : Dict) (v : String)
    (m : Mapping)
    (hs : get_streams_from ms acc = .ok streams) (hm : m ∈ ms)
    (he : extract_variable_from_title m = some v)
    (huniq : ∀ m2 ∈ ms, extract_variable_from_title m2 = some v → m2 = m) :
    dlookup streams v = some (streamOfMapping m) := by
  induction ms generalizing acc with
  | nil => cases hm
  | cons m0 ms ih =>
    cases hx : extract_variable_from_title m0 with
    | none => simp only [get_streams_from, hx] at hs; exact Except.noConfusion hs
    | some v0 =>
      simp only [get_streams_from, hx] at hs
      rcases List.mem_cons.1 hm with rfl | hm'
      · have hv : v0 = v := by rw [hx] at he; injection he
        refine get_streams_from_preserves ms _ streams v _ hs ?_ ?_
        · rw [dlookup_dinsert, hv, if_pos rfl]
        · intro m2 hm2 he2
          rw [huniq m2 (List.mem_cons_of_mem m hm2) he2]
      · exact ih _ hs hm'
          (fun m2 hm2 he2 => huniq m2 (List.mem_cons_of_mem m0 hm2) he2)

/-- The stream derivation exactly as claim C4 words it, for comparison
with the code: replace only a leading `UP` of the usage profile by `ap`. -/
def leadingReplaceUP (s : String) : String :=
  if isPrefixC "UP".data s.data then ⟨'a' :: 'p' :: s.data.drop 2⟩ else s

/-- C4 counterexample: `str.replace("UP", "ap")` rewrites every occurrence
of `UP`, not only a leading one: a first STASH entry with usage profile
`UPUP` yields the stream `apap`, while the claimed leading-only
replacement would yield `apUP`. -/
theorem stream_replace_not_leading_only :
    get_streams [⟨[], [⟨"UPUP"⟩], "Variable a.b.c.d.e"⟩] = .ok [("a.b.c.d.e", "apap")]
    ∧ leadingReplaceUP "UPUP" = "apUP"
    ∧ ("apap" : String) ≠ "apUP" :=
  ⟨rfl, rfl, by decide⟩

/-- C4 (amended): the stream of a mapping record is derived from the
usage profile of the first STASH entry only (later entries are ignored)
by replacing every occurrence of `UP` with `ap`; a record with no STASH
entries, or an empty usage profile, yields the empty stream, and then the
canonical key built for its variable carries no `:stream` suffix. -/
theorem stream_from_first_stash_entry (ms : List Mapping) (streams : Dict) (m : Mapping)
    (v : String)
    (hs : get_streams ms = .ok streams)
    (hm : m ∈ ms) (he : extract_variable_from_title m = some v)
    (huniq : ∀ m2 ∈ ms, extract_variable_from_title m2 = some v → m2 = m) :
    dlookup streams v =
      some (match m.stash_entries with
        | [] => ""
        | e :: _ => if e.usage_profile = "" then "" else strReplaceUPap e.usage_profile)
    ∧ (streamOfMapping m = "" → ∀ r vn b f rest,
        splitOnDot v = r :: vn :: b :: f :: rest →
        canonical_name streams v = some (r ++ "/" ++ vn ++ "_" ++ b ++ "@" ++ f)) := by
  have hv : dlookup streams v = some (streamOfMapping m) :=
    get_streams_from_lookup ms [] streams v m hs hm he huniq
  constructor
  · exact hv
  · intro hempty r vn b f rest hsplit
    simp only [canonical_name, hsplit]
    rw [hv, hempty]
    rfl

/-- Witness for the amended C4: with two STASH entries only the first
(profile `UP4x`, both occurrences of `UP` being one) counts, giving
stream `ap4x`; and a record with no entries gives the empty stream and a
canonical key with no colon suffix. -/
theorem stream_from_first_stash_entry_witness :
    dlookup [("a.b.c.d.e", "ap4x")] "a.b.c.d.e" = some "ap4x"
    ∧ canonical_name [("a.b.c.d.e", "")] "a.b.c.d.e" = some "a/b_c@d" :=
  ⟨(stream_from_first_stash_entry [⟨[], [⟨"UP4x"⟩, ⟨"UP9"⟩], "Variable a.b.c.d.e"⟩]
      [("a.b.c.d.e", "ap4x")] ⟨[], [⟨"UP4x"⟩, ⟨"UP9"⟩], "Variable a.b.c.d.e"⟩ "a.b.c.d.e"
      rfl (List.mem_cons_self _ _) rfl (by decide)).1,
    (stream_from_first_stash_entry [⟨[], [], "Variable a.b.c.d.e"⟩]
      [("a.b.c.d.e", "")] ⟨[], [], "Variable a.b.c.d.e"⟩ "a.b.c.d.e"
      rfl (List.mem_cons_self _ _) rfl (by decide)).2 rfl "a" "b" "c" "d" ["e"] rfl⟩

/-- C5 (amended): a mapping record whose title does not match the
`Variable <key>` pattern is not skipped: the overlay pass raises the
`AttributeError` whatever the current annotation map is, and any run over
a non-empty experiment list aborts with that error, producing no
manifests at all. -/
theorem bad_title_aborts_run (ms : List Mapping) (m : Mapping)
    (hm : m ∈ ms) (he : extract_variable_from_title m = none) :
    (∀ d, identify_not_produced ms d = .error attributeErrorMsg)
    ∧ (∀ (sigma : List String → List String) name ed rest,
        generate_variable_lists sigma ms ((name, ed) :: rest) =
          ([], some attributeErrorMsg)) := by
  have hfail : ∀ d, identify_not_produced ms d = .error attributeErrorMsg := by
    intro d
    induction ms generalizing d with
    | nil => cases hm
    | cons m0 ms ih =>
      cases hx : extract_variable_from_title m0 with
      | none => simp only [identify_not_produced, hx]
      | some v =>
        have hm' : m ∈ ms := by
          rcases List.mem_cons.1 hm with rfl | hm'
          · rw [he] at hx
            cases hx
          · exact hm'
        simp only [identify_not_produced, hx]
        exact ih hm' _
  refine ⟨hfail, fun sigma name ed rest => ?_⟩
  have hp : process_experiment sigma ms ed = .error attributeErrorMsg := by
    simp only [process_experiment, hfail]
  simp only [generate_variable_lists, hp]

/-- Witness for the amended C5: a single unmatchable title makes the
overlay fail and a one-experiment run produce nothing. -/
theorem bad_title_aborts_run_witness :
    identify_not_produced [⟨[], [], "No pattern here"⟩] [] = .error attributeErrorMsg
    ∧ generate_variable_lists List.dedup [⟨[], [], "No pattern here"⟩]
        [("e1", ⟨["a.b.c.d.e"], [], [], []⟩)] = ([], some attributeErrorMsg) :=
  ⟨(bad_title_aborts_run [⟨[], [], "No pattern here"⟩] ⟨[], [], "No pattern here"⟩
      (List.mem_cons_self _ _) rfl).1 [],
    (bad_title_aborts_run [⟨[], [], "No pattern here"⟩] ⟨[], [], "No pattern here"⟩
      (List.mem_cons_self _ _) rfl).2 List.dedup "e1" ⟨["a.b.c.d.e"], [], [], []⟩ []⟩

/-- C5 counterexample: with a malformed-title record followed by a good
do-not-produce record and one experiment, the run aborts with the
`AttributeError` and produces no manifest — the record is not reported
and skipped, and neither the remaining records nor the experiments are
processed. -/
theorem bad_title_not_skipped :
    generate_variable_lists List.dedup
      [⟨["do-not-produce"], [], "bad title"⟩, ⟨["do-not-produce"], [], "Variable a.b.c.d.e"⟩]
      [("e1", ⟨["a.b.c.d.e"], [], [], []⟩)] = ([], some attributeErrorMsg)
    ∧ SetChooser List.dedup :=
  ⟨rfl, setChooser_dedup⟩

theorem canonical_name_eq_none (streams : Dict) (k : String)
    (h : (splitOnDot k).length < 4) : canonical_name streams k = none := by
  rcases hsp : splitOnDot k with _ | ⟨r, _ | ⟨vn, _ | ⟨b, _ | ⟨f, rest⟩⟩⟩⟩
  · simp only [canonical_name, hsp]
  · simp only [canonical_name, hsp]
  · simp only [canonical_name, hsp]
  · simp only [canonical_name, hsp]
  · rw [hsp] at h
    simp only [List.length_cons] at h
    omega

theorem canonical_name_isSome_of (streams : Dict) (k : String)
    (h : ¬(splitOnDot k).length < 4) : (canonical_name streams k).isSome = true := by
  rcases hsp : splitOnDot k with _ | ⟨r, _ | ⟨vn, _ | ⟨b, _ | ⟨f, rest⟩⟩⟩⟩
  · rw [hsp] at h; simp at h
  · rw [hsp] at h; simp at h
  · rw [hsp] at h; simp at h
  · rw [hsp] at h; simp at h
  · simp only [canonical_name, hsp]
    split <;> rfl

theorem reformat_from_short_key_error (streams : Dict) (entries renamed : Dict)
    (k cm : String)
    (hmem : (k, cm) ∈ entries) (hshort : (splitOnDot k).length < 4)
    (honly : ∀ e ∈ entries, (splitOnDot e.1).length < 4 → e.1 = k) :
    reformat_from streams entries renamed = .error (formatErrorMsg k) := by
  induction entries generalizing renamed with
  | nil => cases hmem
  | cons e rest ih =>
    obtain ⟨k0, v0⟩ := e
    by_cases h0 : (splitOnDot k0).length < 4
    · have hk0 : k0 = k := honly (k0, v0) (List.mem_cons_self _ _) h0
      simp only [reformat_from, canonical_name_eq_none streams k0 h0]
      rw [hk0]
    · obtain ⟨c0, hc0⟩ := Option.isSome_iff_exists.1 (canonical_name_isSome_of streams k0 h0)
      simp only [reformat_from, hc0]
      have hmem' : (k, cm) ∈ rest := by
        rcases List.mem_cons.1 hmem with heq | hmem'
        · injection heq with h1 _
          rw [h1] at hshort
          exact absurd hshort h0
        · exact hmem'
      exact ih _ hmem' (fun e he hs => honly e (List.mem_cons_of_mem _ he) hs)

theorem generate_head_error (sigma : List String → List String) (ms : List Mapping)
    (name : String) (ed : ExperimentData) (rest : List (String × ExperimentData))
    (msg : String)
    (hp : process_experiment sigma ms ed = .error msg) :
    generate_variable_lists sigma ms ((name, ed) :: rest) = ([], some msg) := by
  simp only [generate_variable_lists, hp]

/-- C6 (amended): a requested key with fewer than four dot-separated
segments makes normalization raise a `KeyError` whose message names the
key and the expected shape `realm.variable.branding.frequency.region`;
the error is uncaught, so the whole run aborts: the failing experiment
produces no manifest and the remaining experiments are not processed
(rather than the per-experiment isolation the claim describes). -/
theorem short_key_error_aborts_run :
    (∀ (streams entries renamed : Dict) (k cm : String),
      (k, cm) ∈ entries → (splitOnDot k).length < 4 →
      (∀ e ∈ entries, (splitOnDot e.1).length < 4 → e.1 = k) →
      reformat_from streams entries renamed = .error (formatErrorMsg k))
    ∧ (∀ k, formatErrorMsg k =
        k ++ " has unexpected format. Expected: realm.variable.branding.frequency.region")
    ∧ (∀ (sigma : List String → List String) ms name ed rest msg,
      process_experiment sigma ms ed = .error msg →
      generate_variable_lists sigma ms ((name, ed) :: rest) = ([], some msg)) :=
  ⟨fun streams entries renamed k cm hmem hshort honly =>
      reformat_from_short_key_error streams entries renamed k cm hmem hshort honly,
    fun _ => rfl,
    fun sigma ms name ed rest msg hp => generate_head_error sigma ms name ed rest msg hp⟩

/-- Witness for the amended C6 at Scenario D: key `atmos.tas` (two
segments) makes normalization fail with the message naming it, and a run
whose first experiment holds it aborts before the second experiment. -/
theorem short_key_error_aborts_run_witness :
    reformat_from [] [("atmos.tas", " # priority=medium")] [] =
      .error (formatErrorMsg "atmos.tas")
    ∧ generate_variable_lists List.dedup []
        [("e1", ⟨[], [], ["atmos.tas"], []⟩), ("e2", ⟨["a.b.c.d.e"], [], [], []⟩)] =
      ([], some (formatErrorMsg "atmos.tas")) :=
  ⟨short_key_error_aborts_run.1 [] [("atmos.tas", " # priority=medium")] []
      "atmos.tas" " # priority=medium" (List.mem_cons_self _ _) (by decide)
      (fun e he _ => by
        rcases List.mem_cons.1 he with rfl | h0
        · rfl
        · cases h0),
    short_key_error_aborts_run.2.2 List.dedup [] "e1" ⟨[], [], ["atmos.tas"], []⟩
      [("e2", ⟨["a.b.c.d.e"], [], [], []⟩)] (formatErrorMsg "atmos.tas") rfl⟩

/-- C6 counterexample: the run is NOT isolated per experiment: with the
Scenario-D key in the first experiment, the whole run returns the
`KeyError` and an empty manifest list — the well-formed second experiment
is never processed, contrary to the claim. -/
theorem short_key_aborts_other_experiments :
    generate_variable_lists List.dedup []
      [("e1", ⟨[], [], ["atmos.tas"], []⟩), ("e2", ⟨["a.b.c.d.e"], [], [], []⟩)] =
      ([], some "atmos.tas has unexpected format. Expected: realm.variable.branding.frequency.region")
    ∧ SetChooser List.dedup :=
  ⟨rfl, setChooser_dedup⟩

/-- Break a character list at the first occurrence of `ch`, returning the
parts before and after it. -/
def breakAtChar (ch : Char) : List Char → Option (List Char × List Char)
  | [] => none
  | c :: rest =>
    if c = ch then some ([], rest)
    else (breakAtChar ch rest).map (fun p => (c :: p.1, p.2))

/-- The re-splitting of a canonical key described by claim C7: the realm
before the first `/`, then the part before the first `@` split at its
first `_` into variable and branding, and the frequency after the `@` up
to the `:` stream separator when one is present. -/
def resplitCanonical (s : String) : Option (String × String × String × String) :=
  match breakAtChar '/' s.data with
  | none => none
  | some (r, rest1) =>
    match breakAtChar '@' rest1 with
    | none => none
    | some (vb, rest2) =>
      match breakAtChar '_' vb with
      | none => none
      | some (vn, b) => some (⟨r⟩, ⟨vn⟩, ⟨b⟩, ⟨rest2.takeWhile (fun c => c != ':')⟩)

theorem breakAtChar_append (ch : Char) (xs ys : List Char) (h : ch ∉ xs) :
    breakAtChar ch (xs ++ ch :: ys) = some (xs, ys) := by
  induction xs with
  | nil => simp [breakAtChar]
  | cons c xs ih =>
    have hc : ¬(c = ch) := fun hc => h (by rw [hc]; exact List.mem_cons_self _ _)
    have h' : ch ∉ xs := fun hx => h (List.mem_cons_of_mem c hx)
    simp [breakAtChar, hc, ih h']

theorem isPrefixC_append_self (p t : List Char) : isPrefixC p (p ++ t) = true := by
  induction p with
  | nil => rfl
  | cons c p ih => simp [isPrefixC, ih]

theorem takeWhile_append_stop (p : Char → Bool) (l t : List Char)
    (hl : ∀ x ∈ l, p x = true) : (l ++ t).takeWhile p = l ++ t.takeWhile p := by
  induction l with
  | nil => rfl
  | cons c l ih =>
    simp only [List.cons_append, List.takeWhile_cons, hl c (List.mem_cons_self c l),
      if_true, ih (fun x hx => hl x (List.mem_cons_of_mem c hx))]

/-- C7 counterexample: identifier normalization is not injective on
well-formed keys, so no re-splitting of the canonical key can recover
`(realm, variable, branding, frequency)`: the five-segment keys
`a.b_c.d.e.x` and `a.b.c_d.e.x` share the canonical key `a/b_c_d@e`,
and the first-separator re-split returns `(a, b, c_d, e)`, not the
first key's segments `(a, b_c, d, e)`. -/
theorem canonical_key_not_injective :
    canonical_name [] "a.b_c.d.e.x" = some "a/b_c_d@e"
    ∧ canonical_name [] "a.b.c_d.e.x" = some "a/b_c_d@e"
    ∧ splitOnDot "a.b_c.d.e.x" ≠ splitOnDot "a.b.c_d.e.x"
    ∧ resplitCanonical "a/b_c_d@e" = some ("a", "b", "c_d", "e")
    ∧ (("a" : String), ("b", ("c_d", "e"))) ≠ (("a" : String), ("b_c", ("d", "e"))) :=
  ⟨rfl, rfl, by decide, rfl, by decide⟩

/-- C7 (amended): for every key splitting into at least four segments the
canonical key is `r/v_b@f`, suffixed `:stream` exactly when the resolved
stream is non-empty, and `r/v_b@f` is a prefix of the canonical key; and
provided the segments contain no separator characters (`/` not in the
realm, `_` and `@` not in the variable, `@` not in the branding, `:` not
in the frequency — the proviso forced by `canonical_key_not_injective`),
re-splitting the canonical key at the separators recovers
`(r, v, b, f)`. -/
theorem canonical_key_shape_and_recovery (streams : Dict) (key r vn b f : String)
    (rest : List String)
    (hsplit : splitOnDot key = r :: vn :: b :: f :: rest) :
    canonical_name streams key =
      some (if (dlookup streams key).getD "" = ""
        then r ++ "/" ++ vn ++ "_" ++ b ++ "@" ++ f
        else r ++ "/" ++ vn ++ "_" ++ b ++ "@" ++ f ++ ":" ++ (dlookup streams key).getD "")
    ∧ (∀ c, canonical_name streams key = some c →
        isPrefixC (r ++ "/" ++ vn ++ "_" ++ b ++ "@" ++ f).data c.data = true)
    ∧ (('/' : Char) ∉ r.data → ('_' : Char) ∉ vn.data → ('@' : Char) ∉ vn.data →
        ('@' : Char) ∉ b.data → (':' : Char) ∉ f.data →
        ∀ c, canonical_name streams key = some c →
          resplitCanonical c = some (r, vn, b, f)) := by
  have h1 : canonical_name streams key =
      some (if (dlookup streams key).getD "" = ""
        then r ++ "/" ++ vn ++ "_" ++ b ++ "@" ++ f
        else r ++ "/" ++ vn ++ "_" ++ b ++ "@" ++ f ++ ":" ++ (dlookup streams key).getD "") := by
    simp only [canonical_name, hsplit]
    split <;> rfl
  refine ⟨h1, ?_, ?_⟩
  · intro c hc
    rw [h1] at hc
    injection hc with hc
    subst hc
    by_cases hst : (dlookup streams key).getD "" = ""
    · rw [if_pos hst]
      have h := isPrefixC_append_self (r ++ "/" ++ vn ++ "_" ++ b ++ "@" ++ f).data []
      rwa [List.append_nil] at h
    · rw [if_neg hst]
      have e : r ++ "/" ++ vn ++ "_" ++ b ++ "@" ++ f ++ ":" ++ (dlookup streams key).getD ""
          = (r ++ "/" ++ vn ++ "_" ++ b ++ "@" ++ f) ++
            (":" ++ (dlookup streams key).getD "") := by
        rw [String.append_assoc, String.append_assoc]
      rw [e, String.data_append]
      exact isPrefixC_append_self _ _
  · intro hr hvn1 hvn2 hb hf c hc
    rw [h1] at hc
    injection hc with hc
    subst hc
    have hat : ('@' : Char) ∉ vn.data ++ '_' :: b.data := by
      intro hx
      rcases List.mem_append.1 hx with hx | hx
      · exact hvn2 hx
      · rcases List.mem_cons.1 hx with hx | hx
        · exact absurd hx (by decide)
        · exact hb hx
    have hfall : ∀ x ∈ f.data, (x != ':') = true := by
      intro x hx
      simp only [bne_iff_ne, ne_eq]
      exact fun h => hf (h ▸ hx)
    by_cases hst : (dlookup streams key).getD "" = ""
    · rw [if_pos hst]
      have e1 : (r ++ "/" ++ vn ++ "_" ++ b ++ "@" ++ f).data =
          r.data ++ '/' :: ((vn.data ++ '_' :: b.data) ++ '@' :: f.data) := by
        simp [String.data_append, (show ("/" : String).data = ['/'] from rfl),
          (show ("_" : String).data = ['_'] from rfl),
          (show ("@" : String).data = ['@'] from rfl)]
      have e2 : f.data.takeWhile (fun c => c != ':') = f.data :=
        List.takeWhile_eq_self_iff.2 hfall
      simp only [resplitCanonical, e1,
        breakAtChar_append '/' r.data ((vn.data ++ '_' :: b.data) ++ '@' :: f.data) hr,
        breakAtChar_append '@' (vn.data ++ '_' :: b.data) f.data hat,
        breakAtChar_append '_' vn.data b.data hvn1, e2]
    · rw [if_neg hst]
      have e1 : (r ++ "/" ++ vn ++ "_" ++ b ++ "@" ++ f ++ ":" ++
            (dlookup streams key).getD "").data =
          r.data ++ '/' :: ((vn.data ++ '_' :: b.data) ++ '@' ::
            (f.data ++ ':' :: ((dlookup streams key).getD "").data)) := by
        simp [String.data_append, (show ("/" : String).data = ['/'] from rfl),
          (show ("_" : String).data = ['_'] from rfl),
          (show ("@" : String).data = ['@'] from rfl),
          (show (":" : String).data = [':'] from rfl)]
      have e2 : (f.data ++ ':' :: ((dlookup streams key).getD "").data).takeWhile
          (fun c => c != ':') = f.data := by
        rw [takeWhile_append_stop _ _ _ hfall]
        simp [List.takeWhile_cons]
      simp only [resplitCanonical, e1,
        breakAtChar_append '/' r.data
          ((vn.data ++ '_' :: b.data) ++ '@' :: (f.data ++ ':' ::
            ((dlookup streams key).getD "").data)) hr,
        breakAtChar_append '@' (vn.data ++ '_' :: b.data)
          (f.data ++ ':' :: ((dlookup streams key).getD "").data) hat,
        breakAtChar_append '_' vn.data b.data hvn1, e2]

/-- Witness for the amended C7 at a separator-free key with a resolvable
stream: the canonical key is prefixed `x/y_z@w`, suffixed `:ap5`, and
re-splits back to `(x, y, z, w)`. -/
theorem canonical_key_shape_and_recovery_witness :
    canonical_name [("x.y.z.w.r", "ap5")] "x.y.z.w.r" = some "x/y_z@w:ap5"
    ∧ isPrefixC ("x" ++ "/" ++ "y" ++ "_" ++ "z" ++ "@" ++ "w").data "x/y_z@w:ap5".data = true
    ∧ resplitCanonical "x/y_z@w:ap5" = some ("x", "y", "z", "w") := by
  have h := canonical_key_shape_and_recovery [("x.y.z.w.r", "ap5")] "x.y.z.w.r"
    "x" "y" "z" "w" ["r"] rfl
  exact ⟨h.1, h.2.1 "x/y_z@w:ap5" h.1, h.2.2 (by decide) (by decide) (by decide) (by decide)
    (by decide) "x/y_z@w:ap5" h.1⟩

/-- C9: the run is not a deterministic function of the two input
documents. The tier lists pass through `set(...)` and the chained set
iteration order fixes the insertion order of the annotation map, hence
the within-weight-class order of the manifest lines; that order is
unspecified (Python randomizes string hashing per process). Two
legitimate enumerations of the same two-element Core set — both
duplicate-free with the same members — produce manifests for the same
input whose lines are swapped, so two runs of the unchanged pipeline
need not be byte-identical. -/
theorem set_order_nondeterminism :
    SetChooser List.dedup
    ∧ SetChooser (fun l => (List.dedup l).reverse)
    ∧ generate_variable_lists List.dedup []
        [("e", ⟨["a.b.c.d.e", "f.g.h.i.j"], [], [], []⟩)] =
        ([("e", ["a/b_c@d\n", "f/g_h@i\n"])], none)
    ∧ generate_variable_lists (fun l => (List.dedup l).reverse) []
        [("e", ⟨["a.b.c.d.e", "f.g.h.i.j"], [], [], []⟩)] =
        ([("e", ["f/g_h@i\n", "a/b_c@d\n"])], none)
    ∧ (["a/b_c@d\n", "f/g_h@i\n"] : List String) ≠ ["f/g_h@i\n", "a/b_c@d\n"] :=
  ⟨setChooser_dedup, setChooser_dedup_reverse, rfl, rfl, by decide⟩

end VarLists
